import Mathlib

/-!
Shallow embedding of the message-routing and liveness-monitoring core of the
polyspike-discord-bot repository (Python), together with theorems checking the
natural-language specification against it.

Embedded components and their sources:
* Topic matcher        - `MQTTClient._match_topic`      (src/mqtt_client.py)
* Message dispatch     - `MQTTClient.on_message`        (src/mqtt_client.py)
* Rate monitor         - `MQTTClient._check_message_rate` (src/mqtt_client.py)
* Dedup cache          - `handle_trade_completed`       (src/handlers/trading_handler.py)
* Balance handler      - `handle_balance_update`        (src/handlers/balance_handler.py)
* Liveness monitor     - `HeartbeatMonitor`             (src/handlers/heartbeat_monitor.py)

Modelling conventions: Python float timestamps are modelled as `Int` (epoch
seconds); Python exceptions raised by handler callbacks are modelled by an
explicit result value; log output is modelled by boolean flags in result
records where a claim refers to it.
-/

namespace Polyspike

/-- Model of Python's `s.split('/')` on the character list of `s`: `acc` is the
current (reversed) segment being accumulated.  Python's `split` always returns
at least one (possibly empty) segment, e.g. `"".split('/') == ['']`. -/
def splitSegsAux : List Char → List Char → List (List Char)
  | [], acc => [acc.reverse]
  | c :: cs, acc =>
    if c = '/' then acc.reverse :: splitSegsAux cs [] else splitSegsAux cs (c :: acc)

/-- Model of Python's `s.split('/')` (used by `_match_topic` for both the topic
and the pattern). -/
def splitSlash (s : String) : List String :=
  (splitSegsAux s.data []).map (fun cs => String.mk cs)

/-- The per-segment comparison loop shared by both branches of `_match_topic`:
a pattern segment matches a topic segment iff it is `"+"` or equal to it.
Like Python's `zip`, the recursion stops when either list is exhausted (the
callers guard the lengths so that this truncation is never exercised). -/
def segsMatch : List String → List String → Bool
  | p :: ps, t :: ts => (p == "+" || p == t) && segsMatch ps ts
  | _, _ => true

/-- `MQTTClient._match_topic(topic, pattern)` (src/mqtt_client.py:383-425).
Splits both strings on `'/'`; an (unreachable) empty segment list fails closed;
a pattern whose last segment is `'#'` requires the topic to have at least
`len(pattern_parts) - 1` segments and every preceding pattern segment to be
`'+'` or equal to the corresponding topic segment; otherwise segment counts
must be equal and every pattern segment must be `'+'` or equal. -/
def match_topic (topic pattern : String) : Bool :=
  let topic_parts := splitSlash topic
  let pattern_parts := splitSlash pattern
  if pattern_parts = [] then
    false
  else if pattern_parts.getLast? = some "#" then
    if topic_parts.length < pattern_parts.length - 1 then
      false
    else
      segsMatch pattern_parts.dropLast topic_parts
  else if topic_parts.length ≠ pattern_parts.length then
    false
  else
    segsMatch pattern_parts topic_parts

example : match_topic "a/b/c" "a/+/c" = true := by decide
example : match_topic "a/b/c" "a/#" = true := by decide
example : match_topic "a/b" "a/b/c" = false := by decide
example : match_topic "x" "" = false := by decide
example : match_topic "" "" = true := by decide
example : match_topic "a/b/c" "#" = true := by decide
example : match_topic "x" "+" = true := by decide

/-! ## Message dispatch (`MQTTClient.on_message`, src/mqtt_client.py:162-224)

The claims about `on_message` concern its behaviour from the point where the
payload has been decoded and parsed into a JSON object; the parsed object is
modelled by the presence/value of its `timestamp` field, the only field
`on_message` itself inspects. -/

/-- The parsed JSON payload, as far as `on_message` inspects it: the optional
top-level `timestamp` field (epoch seconds, modelled as `Int`). -/
structure MsgData where
  ts : Option Int
  deriving DecidableEq

/-- One entry of `MQTTClient.message_handlers`: a `(pattern, handler)` pair.
The callback itself is abstracted to an identifier `hid`, plus a flag `raises`
recording whether invoking it raises an exception (handler exceptions are
caught individually inside the dispatch loop). -/
structure Handler where
  pattern : String
  hid : Nat
  raises : Bool
  deriving DecidableEq

/-- Outcome of invoking a handler callback: it either returns or raises. -/
inductive HandlerOutcome
  | ok
  | raised
  deriving DecidableEq

/-- Model of calling `handler(data)` inside the dispatch loop. -/
def runHandler (h : Handler) : HandlerOutcome :=
  if h.raises then .raised else .ok

/-- The `for pattern, handler in self.message_handlers` loop of `on_message`:
each handler whose pattern matches the topic is invoked (its `hid` is recorded)
and an exception raised by it is caught and logged, so dispatch continues to
the remaining handlers in both cases. -/
def dispatchLoop (topic : String) : List Handler → List Nat
  | [] => []
  | h :: rest =>
    if match_topic topic h.pattern then
      match runHandler h with
      | .ok => h.hid :: dispatchLoop topic rest
      | .raised => h.hid :: dispatchLoop topic rest
    else
      dispatchLoop topic rest

/-- Observable outcome of one `on_message` call (after successful decoding):
whether the missing-`timestamp` warning was logged, whether
`_check_message_rate` was reached, and the handler invocations in order. -/
structure DispatchResult where
  warned_missing_ts : Bool
  rate_checked : Bool
  invoked : List Nat
  deriving DecidableEq

/-- `MQTTClient.on_message` from the parsed payload onward
(src/mqtt_client.py:193-217): if `"timestamp" not in data`, log a warning and
continue; `elif data.get("timestamp", 0) < self.startup_time - 300`, drop the
message (no rate check, no handlers); otherwise run the rate check and the
dispatch loop. -/
def on_message (startup_time : Int) (handlers : List Handler) (topic : String)
    (data : MsgData) : DispatchResult :=
  match data.ts with
  | none =>
    { warned_missing_ts := true, rate_checked := true,
      invoked := dispatchLoop topic handlers }
  | some t =>
    if t < startup_time - 300 then
      { warned_missing_ts := false, rate_checked := false, invoked := [] }
    else
      { warned_missing_ts := false, rate_checked := true,
        invoked := dispatchLoop topic handlers }

/-! ## Rate monitor (`MQTTClient._check_message_rate`, src/mqtt_client.py:347-381) -/

/-- `high_frequency_topics` (src/mqtt_client.py:357): topics containing one of
these substrings are exempt from rate limiting. -/
def high_frequency_topics : List String := ["stats/periodic", "heartbeat"]

/-- Leading-match helper for the substring test: does `needle` occur at the
start of `hay`? -/
def leadMatch : List Char → List Char → Bool
  | [], _ => true
  | _ :: _, [] => false
  | n :: ns, h :: hs => n == h && leadMatch ns hs

/-- Model of Python's `needle in hay` substring test on character lists. -/
def hasSub : List Char → List Char → Bool
  | n, [] => leadMatch n []
  | n, h :: hs => leadMatch n (h :: hs) || hasSub n hs

/-- Model of Python's `sub in s` for strings (substring containment). -/
def containsSubstr (sub s : String) : Bool := hasSub sub.data s.data

/-- The rate-limiting state owned by `MQTTClient`:
`_message_timestamps` is a `defaultdict` of per-topic deques (`maxlen=100`,
empty by default), `_rate_limit_warnings` maps a topic to the time of its last
rate warning (absent if never warned; `.get(topic, 0)` reads it). -/
structure RateState where
  message_timestamps : String → List Int
  rate_limit_warnings : String → Option Int

/-- The state of a freshly constructed `MQTTClient`: no recorded timestamps,
no recorded warnings. -/
def freshRateState : RateState :=
  { message_timestamps := fun _ => [], rate_limit_warnings := fun _ => none }

/-- `deque(maxlen=100).append`: append on the right, dropping from the left
once the length exceeds 100. -/
def pushMax100 (q : List Int) (t : Int) : List Int :=
  let q1 := q ++ [t]
  if 100 < q1.length then q1.drop (q1.length - 100) else q1

/-- `MQTTClient._check_message_rate(topic)` at time `current_time`
(src/mqtt_client.py:347-381).  Returns the updated state and whether the
high-rate warning was logged by this call.  Exempt topics return immediately;
otherwise the current time is appended to the topic's deque, the entries
within the trailing 60-second window are counted, and a warning is logged iff
the count exceeds the threshold (50) and the last warning for this topic is
more than 300 seconds old (missing reads as 0). -/
def check_message_rate (s : RateState) (topic : String) (current_time : Int) :
    RateState × Bool :=
  if high_frequency_topics.any (fun ft => containsSubstr ft topic) then
    (s, false)
  else
    let topic_queue := pushMax100 (s.message_timestamps topic) current_time
    let cutoff_time := current_time - 60
    let recent_messages := (topic_queue.filter (fun ts => cutoff_time ≤ ts)).length
    let s1 : RateState :=
      { s with message_timestamps := fun t =>
          if t = topic then topic_queue else s.message_timestamps t }
    if 50 < recent_messages then
      let last_warning := (s.rate_limit_warnings topic).getD 0
      if 300 < current_time - last_warning then
        ({ s1 with rate_limit_warnings := fun t =>
             if t = topic then some current_time else s.rate_limit_warnings t },
         true)
      else
        (s1, false)
    else
      (s1, false)

/-- A sequence of `_check_message_rate` calls on one topic at the given times,
returning the final state and the number of warnings logged. -/
def runRate (s : RateState) (topic : String) : List Int → RateState × Nat
  | [] => (s, 0)
  | t :: ts =>
    let step := check_message_rate s topic t
    let rest := runRate step.1 topic ts
    (rest.1, (if step.2 then 1 else 0) + rest.2)

/-! ## Dedup cache (`handle_trade_completed`, src/handlers/trading_handler.py:62-109) -/

/-- A JSON scalar, as far as the trade handler inspects the `trade_id` field:
a string, an integer, or `null`.  (Python compares dict keys with `==`, under
which values of these distinct kinds are never equal.) -/
inductive JVal
  | str (s : String)
  | num (n : Int)
  | null
  deriving DecidableEq

/-- Python truthiness of a `JVal` (`if trade_id:`): the empty string, `0` and
`None` are falsy. -/
def truthy : JVal → Bool
  | .str s => !(s == "")
  | .num n => !(n == 0)
  | .null => false

/-- `_MAX_SEEN_TRADES` (src/handlers/trading_handler.py:30). -/
def MAX_SEEN_TRADES : Nat := 1000

/-- The dedup part of `handle_trade_completed`
(src/handlers/trading_handler.py:90-109).  The state is the key list of the
module-level `_seen_trade_ids` ordered dict, oldest first.  `trade_id` is
`payload.get("trade_id")` (`none` when the field is absent).  Returns the
updated state and whether the notification task was scheduled: a falsy or
absent `trade_id` skips deduplication entirely; a truthy duplicate returns
early without a notification; a truthy novel id is appended and, if the size
then exceeds `_MAX_SEEN_TRADES`, the single oldest entry is evicted
(`popitem(last=False)`). -/
def handle_trade_completed (seen : List JVal) (trade_id : Option JVal) :
    List JVal × Bool :=
  match trade_id with
  | some tid =>
    if truthy tid then
      if tid ∈ seen then
        (seen, false)
      else
        let seen1 := seen ++ [tid]
        let seen2 := if MAX_SEEN_TRADES < seen1.length then seen1.drop 1 else seen1
        (seen2, true)
    else
      (seen, true)
  | none => (seen, true)

/-- Folding `handle_trade_completed` over a list of `trade_id` values,
starting from cache state `seen`. -/
def runTrades (seen : List JVal) : List JVal → List JVal
  | [] => seen
  | tid :: rest => runTrades (handle_trade_completed seen (some tid)).1 rest

/-! ## Balance handler (`handle_balance_update`, src/handlers/balance_handler.py:48-89) -/

/-- `_OLD_MESSAGE_THRESHOLD` (src/handlers/balance_handler.py:26). -/
def OLD_MESSAGE_THRESHOLD : Int := 300

/-- `handle_balance_update(payload, bot)` (src/handlers/balance_handler.py:48-89).
`startup` is the module-level `_startup_time`, `last` the cached
`_last_balance_data`.  `payload.get("timestamp", 0)` defaults a missing
timestamp to 0; a message older than `startup - 300` is dropped before caching
or scheduling the notification.  Returns the new cache and whether the
notification task was scheduled. -/
def handle_balance_update (startup : Int) (last : Option MsgData)
    (payload : MsgData) : Option MsgData × Bool :=
  let msg_timestamp := payload.ts.getD 0
  if msg_timestamp < startup - OLD_MESSAGE_THRESHOLD then
    (last, false)
  else
    (some payload, true)

/-! ## Liveness monitor (`HeartbeatMonitor`, src/handlers/heartbeat_monitor.py) -/

/-- The mutable state of a `HeartbeatMonitor`: `_last_heartbeat_time`,
`_alert_sent`, and the configured `timeout_seconds` (default 90). -/
structure HeartbeatState where
  last_heartbeat_time : Option Int
  alert_sent : Bool
  timeout_seconds : Int
  deriving DecidableEq

/-- `HeartbeatMonitor.update(payload)` at wall-clock time `now`
(src/handlers/heartbeat_monitor.py:47-70): `payload.get("timestamp",
time.time())` becomes the new `_last_heartbeat_time`, and `_alert_sent` is
cleared (the code clears it under `if self._alert_sent:`, which leaves it
`False` in either case). -/
def update (s : HeartbeatState) (ts : Option Int) (now : Int) : HeartbeatState :=
  let timestamp := ts.getD now
  { s with last_heartbeat_time := some timestamp,
           alert_sent := if s.alert_sent then false else s.alert_sent }

/-- One iteration of `HeartbeatMonitor._check_heartbeat_loop` at wall-clock
time `now` (src/handlers/heartbeat_monitor.py:110-137): skip if no heartbeat
was ever received; otherwise, if the elapsed time exceeds `timeout_seconds`
and no alert is pending, send the alert and set `_alert_sent`.  Returns the
new state and whether the alert was sent on this iteration. -/
def check_iteration (s : HeartbeatState) (now : Int) : HeartbeatState × Bool :=
  match s.last_heartbeat_time with
  | none => (s, false)
  | some t =>
    if s.timeout_seconds < now - t then
      if !s.alert_sent then
        ({ s with alert_sent := true }, true)
      else
        (s, false)
    else
      (s, false)

/-- A run of consecutive check-loop iterations (no intervening `update`) at
the given times; returns the final state and the number of alerts sent. -/
def check_run (s : HeartbeatState) : List Int → HeartbeatState × Nat
  | [] => (s, 0)
  | now :: rest =>
    let step := check_iteration s now
    let tail := check_run step.1 rest
    (tail.1, (if step.2 then 1 else 0) + tail.2)

/-- `HeartbeatMonitor.is_bot_online()` at wall-clock time `now`
(src/handlers/heartbeat_monitor.py:181-193): `False` if no heartbeat was ever
received, otherwise whether the elapsed time is at most `timeout_seconds`. -/
def is_bot_online (s : HeartbeatState) (now : Int) : Bool :=
  match s.last_heartbeat_time with
  | none => false
  | some t => now - t ≤ s.timeout_seconds

/-! ## Helper lemmas -/

/-- Exhaustive description of one check-loop iteration: either the state is
returned unchanged with no alert, or the alert flag was clear, the alert is
sent and the flag is set. -/
lemma check_iteration_cases (s : HeartbeatState) (now : Int) :
    check_iteration s now = (s, false) ∨
    (s.alert_sent = false ∧
      check_iteration s now = ({ s with alert_sent := true }, true)) := by
  unfold check_iteration
  cases hlast : s.last_heartbeat_time with
  | none => exact Or.inl rfl
  | some t =>
    by_cases hto : s.timeout_seconds < now - t
    · cases hsent : s.alert_sent with
      | false => exact Or.inr ⟨rfl, by simp [hto, hsent]⟩
      | true => exact Or.inl (by simp [hto, hsent])
    · exact Or.inl (by simp [hto])

/-- The dispatch loop invokes exactly the handlers whose pattern matches the
topic, in list order, whether or not any of them raises. -/
lemma dispatchLoop_eq_filter (topic : String) (hs : List Handler) :
    dispatchLoop topic hs =
      (hs.filter (fun h => match_topic topic h.pattern)).map Handler.hid := by
  induction hs with
  | nil => rfl
  | cons h rest ih =>
    unfold dispatchLoop
    by_cases hm : match_topic topic h.pattern
    · cases hr : runHandler h <;> simp [hm, ih, List.filter_cons]
    · simp [hm, ih, List.filter_cons]

/-! ## Claim theorems -/

/-- C6: within a single outage (a run of check-loop iterations with no
intervening `update()`), the offline alert is sent at most once: a run starting
with the alert-pending flag set sends zero alerts (the flag is never cleared by
the passage of time), a run starting with it clear sends at most one, and the
flag afterwards reflects exactly whether it was already set or an alert was
sent; moreover `update()` is what clears the flag. -/
theorem offline_alert_once :
    (∀ (s : HeartbeatState) (times : List Int),
      (check_run s times).2 ≤ (if s.alert_sent then 0 else 1) ∧
      (check_run s times).1.alert_sent =
        (s.alert_sent || decide (1 ≤ (check_run s times).2))) ∧
    (∀ (s : HeartbeatState) (ts : Option Int) (now : Int),
      (update s ts now).alert_sent = false) := by
  constructor
  · intro s times
    induction times generalizing s with
    | nil => simp [check_run]
    | cons now rest ih =>
      rcases check_iteration_cases s now with hstep | ⟨hsent, hstep⟩
      · have h1 := (ih s).1
        have h2 := (ih s).2
        constructor
        · simp [check_run, hstep]
          exact h1
        · simp [check_run, hstep]
          simpa using h2
      · have h1 : (check_run { s with alert_sent := true } rest).2 = 0 := by
          have := (ih { s with alert_sent := true }).1
          simpa using this
        have h2 : (check_run { s with alert_sent := true } rest).1.alert_sent = true := by
          have := (ih { s with alert_sent := true }).2
          simpa using this
        constructor
        · simp [check_run, hstep, hsent, h1]
        · simp [check_run, hstep, hsent, h1, h2]
  · intro s ts now
    simp [update]

/-- C9: `is_bot_online()` is `False` when no heartbeat was ever received, and
otherwise holds iff the elapsed time since the last heartbeat is at most the
configured timeout; with timeout 90, an `update()` carrying timestamp 0 makes
it online exactly through time 90, and a later `update()` at time 150 makes it
online again (with the alert flag cleared). -/
theorem is_bot_online_spec :
    (∀ (s : HeartbeatState) (now : Int),
      s.last_heartbeat_time = none → is_bot_online s now = false) ∧
    (∀ (s : HeartbeatState) (now t : Int),
      s.last_heartbeat_time = some t →
        (is_bot_online s now = true ↔ now - t ≤ s.timeout_seconds)) ∧
    (∀ (s : HeartbeatState) (now1 now2 : Int),
      s.timeout_seconds = 90 →
        (is_bot_online (update s (some 0) now1) now2 = true ↔ now2 ≤ 90) ∧
        is_bot_online (update (update s (some 0) now1) (some 150) now2) 150 = true ∧
        (update (update s (some 0) now1) (some 150) now2).alert_sent = false) := by
  refine ⟨?_, ?_, ?_⟩
  · intro s now h
    simp [is_bot_online, h]
  · intro s now t h
    simp [is_bot_online, h]
  · intro s now1 now2 h
    refine ⟨?_, ?_, ?_⟩
    · simp [is_bot_online, update, h]
    · simp [is_bot_online, update, h]
    · simp [update]

/-- Witness for `is_bot_online_spec` at concrete states and times. -/
theorem is_bot_online_spec_witness :
    is_bot_online ⟨none, false, 90⟩ 5 = false ∧
    (is_bot_online ⟨some 3, false, 90⟩ 10 = true ↔ 10 - 3 ≤ (90 : Int)) ∧
    (is_bot_online (update ⟨none, true, 90⟩ (some 0) 2) 91 = true ↔ (91 : Int) ≤ 90) ∧
    is_bot_online (update (update ⟨none, true, 90⟩ (some 0) 2) (some 150) 151) 150 = true :=
  ⟨is_bot_online_spec.1 ⟨none, false, 90⟩ 5 rfl,
   is_bot_online_spec.2.1 ⟨some 3, false, 90⟩ 10 3 rfl,
   (is_bot_online_spec.2.2 ⟨none, true, 90⟩ 2 91 rfl).1,
   (is_bot_online_spec.2.2 ⟨none, true, 90⟩ 2 151 rfl).2.1⟩

/-- C10: a `trade_id` field holding a Python-falsy value (empty string, 0, or
null) is treated exactly like an absent `trade_id`: the dedup check is skipped,
the seen-id cache is unchanged, and the notification is scheduled. -/
theorem falsy_trade_id_skips_dedup (seen : List JVal) (v : JVal)
    (hv : truthy v = false) :
    handle_trade_completed seen (some v) = (seen, true) ∧
    handle_trade_completed seen none = (seen, true) := by
  constructor
  · simp [handle_trade_completed, hv]
  · rfl

/-- Witness for `falsy_trade_id_skips_dedup`: the empty string, 0 and null are
falsy, and each leaves a concrete nonempty cache untouched while scheduling
the notification. -/
theorem falsy_trade_id_skips_dedup_witness :
    truthy (JVal.str "") = false ∧
    handle_trade_completed [JVal.str "t1"] (some (JVal.str "")) = ([JVal.str "t1"], true) ∧
    handle_trade_completed [JVal.str "t1"] (some (JVal.num 0)) = ([JVal.str "t1"], true) ∧
    handle_trade_completed [JVal.str "t1"] (some JVal.null) = ([JVal.str "t1"], true) :=
  ⟨by decide,
   (falsy_trade_id_skips_dedup [JVal.str "t1"] (JVal.str "") (by decide)).1,
   (falsy_trade_id_skips_dedup [JVal.str "t1"] (JVal.num 0) (by decide)).1,
   (falsy_trade_id_skips_dedup [JVal.str "t1"] JVal.null (by decide)).1⟩

/-- C2 counterexample: the claim says a message with `timestamp` equal to
`startup_time - 300` is dropped with zero handler invocations and no rate
check, but the code's test is strict (`< startup_time - 300`), so at
`startup_time = 1000` a message with `timestamp = 700` is rate-checked and
delivered to the matching handler. -/
theorem staleness_boundary_cex :
    on_message 1000 [⟨"#", 0, false⟩] "a" ⟨some 700⟩ =
      { warned_missing_ts := false, rate_checked := true, invoked := [0] } := by
  decide

/-- C2 (amended): a message whose `timestamp` is strictly less than
`startup_time - 300` is dropped with zero handler invocations and no rate
check; a message whose `timestamp` is at least `startup_time - 300` (in
particular one at exactly `startup_time - 300` or at `startup_time - 299`) is
rate-checked and delivered to the matching handlers. -/
theorem staleness_filter_amended (startup : Int) (handlers : List Handler)
    (topic : String) (t : Int) :
    (t < startup - 300 →
      on_message startup handlers topic ⟨some t⟩ =
        { warned_missing_ts := false, rate_checked := false, invoked := [] }) ∧
    (startup - 300 ≤ t →
      on_message startup handlers topic ⟨some t⟩ =
        { warned_missing_ts := false, rate_checked := true,
          invoked := (handlers.filter
            (fun h => match_topic topic h.pattern)).map Handler.hid }) := by
  constructor
  · intro h
    simp [on_message, h]
  · intro h
    have h2 : ¬(t < startup - 300) := by omega
    simp [on_message, h2, dispatchLoop_eq_filter]

/-- Witness for `staleness_filter_amended`: with `startup_time = 1000` and a
catch-all handler, a message at time 699 is dropped and one at time 700
(the boundary) is delivered. -/
theorem staleness_filter_amended_witness :
    on_message 1000 [⟨"#", 7, false⟩] "b" ⟨some 699⟩ =
      { warned_missing_ts := false, rate_checked := false, invoked := [] } ∧
    on_message 1000 [⟨"#", 7, false⟩] "b" ⟨some 700⟩ =
      { warned_missing_ts := false, rate_checked := true, invoked := [7] } := by
  constructor
  · exact (staleness_filter_amended 1000 [⟨"#", 7, false⟩] "b" 699).1 (by decide)
  · have h := (staleness_filter_amended 1000 [⟨"#", 7, false⟩] "b" 700).2 (by decide)
    rw [h]
    decide

/-- C3: for a message that passes the staleness filter, every registered
subscription whose pattern matches the topic is invoked exactly once, in
registration order — the invocation list is exactly the matching sublist of
the handler list, independently of which handlers raise exceptions (each
handler's exception is caught inside the loop). -/
theorem multi_handler_fanout (startup : Int) (handlers : List Handler)
    (topic : String) (d : MsgData)
    (h : d.ts = none ∨ ∃ t, d.ts = some t ∧ startup - 300 ≤ t) :
    (on_message startup handlers topic d).invoked =
      (handlers.filter (fun h => match_topic topic h.pattern)).map Handler.hid := by
  rcases h with h | ⟨t, h, ht⟩
  · rcases d with ⟨ts⟩
    cases h
    simp [on_message, dispatchLoop_eq_filter]
  · rcases d with ⟨ts⟩
    cases h
    have h2 : ¬(t < startup - 300) := by omega
    simp [on_message, h2, dispatchLoop_eq_filter]

/-- Witness for `multi_handler_fanout`: two handlers with overlapping patterns
`a/+/b` and `a/#`, the first of which raises, both fire exactly once and in
registration order on a message matching both. -/
theorem multi_handler_fanout_witness :
    (on_message 1000 [⟨"a/+/b", 0, true⟩, ⟨"a/#", 1, false⟩] "a/x/b"
      ⟨some 1000⟩).invoked = [0, 1] := by
  have h := multi_handler_fanout 1000 [⟨"a/+/b", 0, true⟩, ⟨"a/#", 1, false⟩]
    "a/x/b" ⟨some 1000⟩ (Or.inr ⟨1000, rfl, by decide⟩)
  rw [h]
  decide

/-- C7 counterexample: the claim says a message lacking `timestamp` is still
processed by the matching handlers, balance updates included; the router does
deliver it, but `handle_balance_update` defaults the missing timestamp to 0,
which fails its own staleness check whenever the handler's startup time
exceeds 300, so the event is dropped there: nothing is cached and no
notification is scheduled. -/
theorem missing_timestamp_balance_cex :
    (on_message 1000 [⟨"polyspike/balance/update", 0, false⟩]
      "polyspike/balance/update" ⟨none⟩).invoked = [0] ∧
    handle_balance_update 1000 none ⟨none⟩ = (none, false) := by
  constructor
  · decide
  · decide

/-- C7 (amended): the router logs a warning for a message lacking `timestamp`
but does not reject it — the rate check runs and all matching handlers are
invoked; however, the balance-update handler itself then drops such an event
whenever its startup time exceeds 300, because it defaults the missing
timestamp to 0 and 0 fails the `startup - 300` staleness cutoff, so neither
the balance cache nor a notification results. -/
theorem missing_timestamp_amended (startup : Int) (handlers : List Handler)
    (topic : String) :
    on_message startup handlers topic ⟨none⟩ =
      { warned_missing_ts := true, rate_checked := true,
        invoked := (handlers.filter
          (fun h => match_topic topic h.pattern)).map Handler.hid } ∧
    (∀ (bstartup : Int) (last : Option MsgData), 300 < bstartup →
      handle_balance_update bstartup last ⟨none⟩ = (last, false)) := by
  constructor
  · simp [on_message, dispatchLoop_eq_filter]
  · intro bstartup last h
    have h0 : (0 : Int) < bstartup - OLD_MESSAGE_THRESHOLD := by
      simp only [OLD_MESSAGE_THRESHOLD]
      omega
    simp [handle_balance_update, h0]

/-- Witness for `missing_timestamp_amended` at a concrete startup time and
handler list. -/
theorem missing_timestamp_amended_witness :
    on_message 1000 [⟨"polyspike/balance/update", 3, false⟩]
      "polyspike/balance/update" ⟨none⟩ =
      { warned_missing_ts := true, rate_checked := true, invoked := [3] } ∧
    handle_balance_update 1000 (some ⟨some 900⟩) ⟨none⟩ = (some ⟨some 900⟩, false) := by
  constructor
  · have h := (missing_timestamp_amended 1000 [⟨"polyspike/balance/update", 3, false⟩]
      "polyspike/balance/update").1
    rw [h]
    decide
  · exact (missing_timestamp_amended 1000 [] "x").2 1000 (some ⟨some 900⟩) (by decide)

/-- Python's split always yields at least one segment. -/
lemma splitSegsAux_ne_nil (cs acc : List Char) : splitSegsAux cs acc ≠ [] := by
  induction cs generalizing acc with
  | nil => simp [splitSegsAux]
  | cons c cs ih =>
    unfold splitSegsAux
    by_cases h : c = '/'
    · simp [h]
    · simp only [h, if_false]
      exact ih _

/-- The split is the single empty segment exactly when the input (and the
accumulator) are empty. -/
lemma splitSegsAux_eq_single_nil (cs acc : List Char) :
    splitSegsAux cs acc = [[]] ↔ (cs = [] ∧ acc = []) := by
  induction cs generalizing acc with
  | nil => simp [splitSegsAux]
  | cons c cs ih =>
    unfold splitSegsAux
    by_cases h : c = '/'
    · rw [if_pos h]
      simp only [List.cons.injEq]
      constructor
      · rintro ⟨-, htail⟩
        exact absurd htail (splitSegsAux_ne_nil cs [])
      · rintro ⟨hcs, -⟩
        exact absurd hcs (List.cons_ne_nil c cs)
    · rw [if_neg h]
      rw [ih (c :: acc)]
      simp

/-- `splitSlash` never returns the empty list. -/
lemma splitSlash_ne_nil (s : String) : splitSlash s ≠ [] := by
  unfold splitSlash
  intro h
  rw [List.map_eq_nil_iff] at h
  exact splitSegsAux_ne_nil _ _ h

/-- `splitSlash` yields the single empty segment exactly on the empty
string. -/
lemma splitSlash_eq_single_empty (s : String) : splitSlash s = [""] ↔ s = "" := by
  constructor
  · intro h
    unfold splitSlash at h
    rcases hl : splitSegsAux s.data [] with _ | ⟨x, xs⟩
    · exact absurd hl (splitSegsAux_ne_nil _ _)
    · rw [hl] at h
      simp only [List.map_cons, List.cons.injEq] at h
      obtain ⟨hx, hxs⟩ := h
      have hx0 : x = [] := by
        have hx2 : String.mk x = String.mk [] := hx
        injection hx2
      rw [List.map_eq_nil_iff] at hxs
      have hone : splitSegsAux s.data [] = [[]] := by rw [hl, hx0, hxs]
      have h2 := (splitSegsAux_eq_single_nil s.data []).mp hone
      cases s with
      | mk data =>
        simp only at h2
        rw [h2.1]
  · intro h
    subst h
    rfl

/-- C8 counterexample: the claim says the empty pattern never matches any
topic, but on the empty topic the code matches — Python's `"".split('/')` is
`['']`, so both sides split to the same one-segment list. -/
theorem empty_pattern_cex : match_topic "" "" = true := by decide

/-- C8 (amended): the empty pattern matches only the empty topic; for every
nonempty topic it fails. -/
theorem empty_pattern_amended (T : String) : match_topic T "" = decide (T = "") := by
  by_cases hT : T = ""
  · subst hT
    decide
  · rw [decide_eq_false hT]
    have hp : splitSlash "" = [""] := rfl
    rcases hl : splitSlash T with _ | ⟨t0, rest⟩
    · exact absurd hl (splitSlash_ne_nil T)
    · rcases rest with _ | ⟨t1, rest2⟩
      · have ht0 : t0 ≠ "" := by
          intro h0
          subst h0
          exact hT ((splitSlash_eq_single_empty T).mp hl)
        simp [match_topic, hl, hp, segsMatch, ht0, Ne.symm ht0]
      · simp [match_topic, hl, hp]

/-- Index characterization of the per-segment loop when the topic side is long
enough: all pattern segments must be `"+"` or equal to the topic segment at
the same index. -/
lemma segsMatch_iff (ps ts : List String) (hlen : ps.length ≤ ts.length) :
    segsMatch ps ts = true ↔
      ∀ i, i < ps.length → (ps.getD i "" = ts.getD i "" ∨ ps.getD i "" = "+") := by
  induction ps generalizing ts with
  | nil => simp [segsMatch]
  | cons p ps ih =>
    cases ts with
    | nil => simp at hlen
    | cons t ts =>
      simp only [List.length_cons, Nat.add_le_add_iff_right] at hlen
      simp only [segsMatch, Bool.and_eq_true, Bool.or_eq_true, beq_iff_eq]
      rw [ih ts hlen]
      constructor
      · rintro ⟨hp, hrest⟩ i hi
        cases i with
        | zero =>
          simp only [List.getD_cons_zero]
          tauto
        | succ j =>
          simp only [List.getD_cons_succ]
          exact hrest j (by simpa using hi)
      · intro h
        constructor
        · have := h 0 (by simp)
          simp only [List.getD_cons_zero] at this
          tauto
        · intro j hj
          have := h (j + 1) (by simpa using hj)
          simpa only [List.getD_cons_succ] using this

/-- `getD` on `dropLast` agrees with `getD` on the original list below the
last index. -/
lemma getD_dropLast (l : List String) (i : Nat) (h : i < l.length - 1) :
    l.dropLast.getD i "" = l.getD i "" := by
  induction l generalizing i with
  | nil => simp at h
  | cons a l ih =>
    cases l with
    | nil => simp at h
    | cons b l2 =>
      cases i with
      | zero => simp [List.dropLast]
      | succ j =>
        simp only [List.length_cons] at h
        have hj : j < (b :: l2).length - 1 := by
          simp only [List.length_cons]
          omega
        simp only [List.dropLast, List.getD_cons_succ]
        exact ih j hj

/-- C1: for a pattern whose last `'/'`-separated segment is exactly `"#"`,
`_match_topic` succeeds iff the topic has at least (pattern length − 1)
segments and each of the first (pattern length − 1) pattern segments equals
the corresponding topic segment or is `"+"`; remaining topic segments are
unconstrained. -/
theorem topic_match_hash_spec (T P : String)
    (h : (splitSlash P).getLast? = some "#") :
    match_topic T P = true ↔
      ((splitSlash P).length - 1 ≤ (splitSlash T).length ∧
       ∀ i, i < (splitSlash P).length - 1 →
         ((splitSlash P).getD i "" = (splitSlash T).getD i "" ∨
          (splitSlash P).getD i "" = "+")) := by
  have hne : splitSlash P ≠ [] := by
    intro h0
    rw [h0] at h
    simp at h
  unfold match_topic
  rw [if_neg hne, if_pos h]
  by_cases hlt : (splitSlash T).length < (splitSlash P).length - 1
  · rw [if_pos hlt]
    constructor
    · intro hF
      simp at hF
    · rintro ⟨hge, -⟩
      exact absurd hlt (by omega)
  · rw [if_neg hlt]
    have hge : (splitSlash P).length - 1 ≤ (splitSlash T).length := by omega
    have hdl : (splitSlash P).dropLast.length = (splitSlash P).length - 1 :=
      List.length_dropLast _
    rw [segsMatch_iff _ _ (by rw [hdl]; exact hge)]
    rw [hdl]
    constructor
    · intro hall
      refine ⟨hge, fun i hi => ?_⟩
      have := hall i hi
      rwa [getD_dropLast _ _ hi] at this
    · rintro ⟨-, hall⟩ i hi
      rw [getD_dropLast _ _ hi]
      exact hall i hi

/-- Witness for `topic_match_hash_spec` on the pattern `a/+/#` and topic
`a/b/c/d`. -/
theorem topic_match_hash_spec_witness :
    (splitSlash "a/+/#").getLast? = some "#" ∧
    (match_topic "a/b/c/d" "a/+/#" = true ↔
      ((splitSlash "a/+/#").length - 1 ≤ (splitSlash "a/b/c/d").length ∧
       ∀ i, i < (splitSlash "a/+/#").length - 1 →
         ((splitSlash "a/+/#").getD i "" = (splitSlash "a/b/c/d").getD i "" ∨
          (splitSlash "a/+/#").getD i "" = "+"))) :=
  ⟨by decide, topic_match_hash_spec "a/b/c/d" "a/+/#" (by decide)⟩

/-- Processing a concatenation of trade ids processes them in sequence. -/
lemma runTrades_append (s : List JVal) (l1 l2 : List JVal) :
    runTrades s (l1 ++ l2) = runTrades (runTrades s l1) l2 := by
  induction l1 generalizing s with
  | nil => simp [runTrades]
  | cons x l1 ih => simp [runTrades, ih]

/-- Inserting a truthy, not-yet-seen id appends it and evicts the single
oldest entry when the capacity is exceeded. -/
lemma handle_novel (seen : List JVal) (x : JVal) (hx : truthy x = true)
    (hm : x ∉ seen) :
    (handle_trade_completed seen (some x)).1 =
      if MAX_SEEN_TRADES < seen.length + 1 then (seen ++ [x]).drop 1
      else seen ++ [x] := by
  by_cases h : MAX_SEEN_TRADES < seen.length + 1
  · simp [handle_trade_completed, hx, hm, List.length_append, h]
  · simp [handle_trade_completed, hx, hm, List.length_append, h]

/-- Inserting distinct truthy ids starting from an empty cache leaves the most
recent `_MAX_SEEN_TRADES` of them, in insertion order. -/
lemma runTrades_nil_eq (l : List JVal) (hnd : l.Nodup)
    (htr : ∀ v ∈ l, truthy v = true) :
    runTrades [] l = l.drop (l.length - MAX_SEEN_TRADES) := by
  have hM : 0 < MAX_SEEN_TRADES := by norm_num [MAX_SEEN_TRADES]
  induction l using List.reverseRecOn with
  | nil => simp [runTrades]
  | append_singleton l x ih =>
    have hnd2 := hnd
    rw [List.nodup_append] at hnd2
    obtain ⟨hlnd, -, hdisj⟩ := hnd2
    have hxl : x ∉ l := fun hmem => hdisj hmem (List.mem_singleton_self x)
    have htr_l : ∀ v ∈ l, truthy v = true :=
      fun v hv => htr v (List.mem_append_left _ hv)
    have htr_x : truthy x = true := htr x (by simp)
    have hxst : x ∉ l.drop (l.length - MAX_SEEN_TRADES) :=
      fun hmem => hxl (List.drop_subset _ _ hmem)
    have hstlen : (l.drop (l.length - MAX_SEEN_TRADES)).length =
        l.length - (l.length - MAX_SEEN_TRADES) := List.length_drop _ _
    rw [runTrades_append, ih hlnd htr_l]
    simp only [runTrades]
    rw [handle_novel _ _ htr_x hxst, hstlen]
    rw [List.length_append, List.length_singleton]
    by_cases hcap : l.length < MAX_SEEN_TRADES
    · rw [if_neg (by omega)]
      have h1 : l.length - MAX_SEEN_TRADES = 0 := by omega
      have h2 : l.length + 1 - MAX_SEEN_TRADES = 0 := by omega
      rw [h1, h2, List.drop_zero, List.drop_zero]
    · rw [if_pos (by omega)]
      rw [List.drop_append_of_le_length (by omega)]
      rw [List.drop_drop]
      rw [List.drop_append_of_le_length (by omega)]
      have harith : l.length - MAX_SEEN_TRADES + 1 = l.length + 1 - MAX_SEEN_TRADES := by
        omega
      rw [harith]

/-- C4: starting from an empty dedup cache, inserting `capacity + 1` distinct
truthy trade ids leaves exactly `capacity` (= 1000) entries: the final cache is
the insertion sequence minus its first element, so the single oldest id is
absent and all others are present; moreover no single operation ever grows a
cache of at most `capacity` entries beyond `capacity`. -/
theorem dedup_fifo_eviction (ids : List JVal)
    (hlen : ids.length = MAX_SEEN_TRADES + 1) (hnd : ids.Nodup)
    (htr : ∀ v ∈ ids, truthy v = true) :
    runTrades [] ids = ids.drop 1 ∧
    (runTrades [] ids).length = MAX_SEEN_TRADES ∧
    (∀ h0, ids.head? = some h0 → h0 ∉ runTrades [] ids) ∧
    (∀ v ∈ ids.drop 1, v ∈ runTrades [] ids) ∧
    (∀ (seen : List JVal) (tid : Option JVal), seen.length ≤ MAX_SEEN_TRADES →
      (handle_trade_completed seen tid).1.length ≤ MAX_SEEN_TRADES) := by
  have hmain : runTrades [] ids = ids.drop 1 := by
    rw [runTrades_nil_eq ids hnd htr, hlen]
    congr 1
  refine ⟨hmain, ?_, ?_, ?_, ?_⟩
  · rw [hmain, List.length_drop, hlen]
    omega
  · intro h0 hh
    rw [hmain]
    cases ids with
    | nil => simp at hh
    | cons a tl =>
      simp only [List.head?_cons, Option.some.injEq] at hh
      subst hh
      simp only [List.drop_succ_cons, List.drop_zero]
      exact (List.nodup_cons.mp hnd).1
  · intro v hv
    rw [hmain]
    exact hv
  · intro seen tid hle
    match tid with
    | none => simpa [handle_trade_completed] using hle
    | some t =>
      by_cases htt : truthy t
      · by_cases hmem : t ∈ seen
        · simpa [handle_trade_completed, htt, hmem] using hle
        · rw [handle_novel seen t htt hmem]
          by_cases hcap : MAX_SEEN_TRADES < seen.length + 1
          · rw [if_pos hcap, List.length_drop, List.length_append,
              List.length_singleton]
            omega
          · rw [if_neg hcap, List.length_append, List.length_singleton]
            omega
      · simpa [handle_trade_completed, htt] using hle

/-- Witness for `dedup_fifo_eviction`: the 1001 distinct numeric ids 1..1001
leave exactly the last 1000 in the cache. -/
theorem dedup_fifo_eviction_witness :
    ((List.range (MAX_SEEN_TRADES + 1)).map
        (fun i : Nat => JVal.num ((i : Int) + 1))).length = MAX_SEEN_TRADES + 1 ∧
    runTrades []
        ((List.range (MAX_SEEN_TRADES + 1)).map (fun i : Nat => JVal.num ((i : Int) + 1))) =
      ((List.range (MAX_SEEN_TRADES + 1)).map
        (fun i : Nat => JVal.num ((i : Int) + 1))).drop 1 := by
  have hinj : Function.Injective (fun i : Nat => JVal.num ((i : Int) + 1)) := by
    intro a b hab
    simp only [JVal.num.injEq] at hab
    omega
  have hlen : ((List.range (MAX_SEEN_TRADES + 1)).map
      (fun i : Nat => JVal.num ((i : Int) + 1))).length = MAX_SEEN_TRADES + 1 := by
    rw [List.length_map, List.length_range]
  have hnd := (List.nodup_range (MAX_SEEN_TRADES + 1)).map hinj
  have htr : ∀ v ∈ (List.range (MAX_SEEN_TRADES + 1)).map
      (fun i : Nat => JVal.num ((i : Int) + 1)), truthy v = true := by
    intro v hv
    simp only [List.mem_map] at hv
    obtain ⟨i, -, rfl⟩ := hv
    have hnz : ((i : Int) + 1) ≠ 0 := by omega
    simp [truthy, hnz]
  exact ⟨hlen, (dedup_fifo_eviction _ hlen hnd htr).1⟩

/-- `_check_message_rate` on a non-exempt topic, with the lets unfolded. -/
lemma check_step_nonexempt (s : RateState) (topic : String) (t : Int)
    (hex : (high_frequency_topics.any fun ft => containsSubstr ft topic) = false) :
    check_message_rate s topic t =
      (if 50 < ((pushMax100 (s.message_timestamps topic) t).filter
            (fun x => decide (t - 60 ≤ x))).length then
        if 300 < t - (s.rate_limit_warnings topic).getD 0 then
          ({ message_timestamps := fun u =>
                if u = topic then pushMax100 (s.message_timestamps topic) t
                else s.message_timestamps u,
             rate_limit_warnings := fun u =>
                if u = topic then some t else s.rate_limit_warnings u }, true)
        else
          ({ message_timestamps := fun u =>
                if u = topic then pushMax100 (s.message_timestamps topic) t
                else s.message_timestamps u,
             rate_limit_warnings := s.rate_limit_warnings }, false)
      else
        ({ message_timestamps := fun u =>
              if u = topic then pushMax100 (s.message_timestamps topic) t
              else s.message_timestamps u,
           rate_limit_warnings := s.rate_limit_warnings }, false)) := by
  unfold check_message_rate
  rw [if_neg (by rw [hex]; exact Bool.false_ne_true)]

/-- A call whose topic is still inside the 300-second warning cooldown emits
no warning and leaves the warning map untouched. -/
lemma check_cooldown (s : RateState) (topic : String) (t w : Int)
    (hw : s.rate_limit_warnings topic = some w) (ht : t - w ≤ 300) :
    (check_message_rate s topic t).2 = false ∧
    (check_message_rate s topic t).1.rate_limit_warnings = s.rate_limit_warnings := by
  by_cases hex : (high_frequency_topics.any fun ft => containsSubstr ft topic) = true
  · unfold check_message_rate
    rw [if_pos hex]
    exact ⟨rfl, rfl⟩
  · rw [check_step_nonexempt s topic t (by simpa using hex)]
    split
    · rw [hw]
      simp only [Option.getD_some]
      rw [if_neg (by omega)]
      exact ⟨rfl, rfl⟩
    · exact ⟨rfl, rfl⟩

/-- A whole run of calls inside the cooldown window emits no warnings and
preserves the warning map. -/
lemma runRate_cooldown (topic : String) (w : Int) :
    ∀ (l : List Int) (s : RateState),
      s.rate_limit_warnings topic = some w →
      (∀ t ∈ l, t - w ≤ 300) →
      (runRate s topic l).2 = 0 ∧
      (runRate s topic l).1.rate_limit_warnings = s.rate_limit_warnings := by
  intro l
  induction l with
  | nil =>
    intro s hw hl
    exact ⟨rfl, rfl⟩
  | cons t l ih =>
    intro s hw hl
    have hstep := check_cooldown s topic t w hw (hl t (by simp))
    have hw2 : (check_message_rate s topic t).1.rate_limit_warnings topic = some w := by
      rw [hstep.2]
      exact hw
    have ihh := ih (check_message_rate s topic t).1 hw2 (fun u hu => hl u (by simp [hu]))
    constructor
    · simp [runRate, hstep.1, ihh.1]
    · simp only [runRate, ihh.2, hstep.2]

/-- Elements of a bounded-deque push come from the old queue or are the pushed
element. -/
lemma mem_pushMax100 (q : List Int) (t x : Int) (hx : x ∈ pushMax100 q t) :
    x ∈ q ∨ x = t := by
  simp only [pushMax100] at hx
  split at hx
  · have h2 := List.drop_subset _ _ hx
    simpa using h2
  · simpa using hx

/-- Elements of the topic's queue after one rate check come from the old queue
or are the recorded time. -/
lemma check_rate_elems (s : RateState) (topic : String) (t x : Int)
    (hx : x ∈ (check_message_rate s topic t).1.message_timestamps topic) :
    x ∈ s.message_timestamps topic ∨ x = t := by
  by_cases hex : (high_frequency_topics.any fun ft => containsSubstr ft topic) = true
  · unfold check_message_rate at hx
    rw [if_pos hex] at hx
    exact Or.inl hx
  · rw [check_step_nonexempt s topic t (by simpa using hex)] at hx
    split at hx <;> [skip; exact mem_pushMax100 _ _ _ (by simpa using hx)]
    split at hx <;> exact mem_pushMax100 _ _ _ (by simpa using hx)

/-- Elements of the topic's queue after a run of rate checks come from the
initial queue or from the recorded times. -/
lemma runRate_elems (topic : String) :
    ∀ (l : List Int) (s : RateState) (x : Int),
      x ∈ (runRate s topic l).1.message_timestamps topic →
      x ∈ s.message_timestamps topic ∨ x ∈ l := by
  intro l
  induction l with
  | nil =>
    intro s x hx
    exact Or.inl hx
  | cons t l ih =>
    intro s x hx
    simp only [runRate] at hx
    rcases ih (check_message_rate s topic t).1 x hx with h2 | h2
    · rcases check_rate_elems s topic t x h2 with h3 | h3
      · exact Or.inl h3
      · exact Or.inr (by simp [h3])
    · exact Or.inr (by simp [h2])

/-- Appending to a deque whose recent part is short keeps that recent part (and
the new element) intact, dropping only older elements. -/
lemma pushMax100_split (o r : List Int) (t : Int) (hr : r.length ≤ 99) :
    ∃ o2 : List Int, (∀ x ∈ o2, x ∈ o) ∧
      pushMax100 (o ++ r) t = o2 ++ (r ++ [t]) := by
  have hq : (o ++ r) ++ [t] = o ++ (r ++ [t]) := List.append_assoc o r [t]
  have hlen : ((o ++ r) ++ [t]).length = o.length + r.length + 1 := by
    simp [List.length_append]
    omega
  by_cases h : 100 < o.length + r.length + 1
  · refine ⟨o.drop (o.length + r.length + 1 - 100),
      fun x hx => List.drop_subset _ _ hx, ?_⟩
    simp only [pushMax100]
    rw [hlen, if_pos h, hq]
    exact List.drop_append_of_le_length (by omega)
  · refine ⟨o, fun x hx => hx, ?_⟩
    simp only [pushMax100]
    rw [hlen, if_neg h, hq]

/-- Unfolding equation for `runRate` on a nonempty list of call times. -/
lemma runRate_cons (s : RateState) (topic : String) (t : Int) (l : List Int) :
    runRate s topic (t :: l) =
      ((runRate (check_message_rate s topic t).1 topic l).1,
       (if (check_message_rate s topic t).2 then 1 else 0) +
         (runRate (check_message_rate s topic t).1 topic l).2) := rfl

/-- Burst lemma: from a state whose recorded queue for the topic splits into
stale entries (older than `t0 - 120`) and a partial burst prefix inside the
60-second window ending at `t0`, running the remaining burst calls (window
entries totalling 51, ending at `t0`, with the cooldown expired) emits exactly
one warning — at the 51st call — and stamps the warning time `t0`. -/
lemma burst_aux (topic : String) (t0 : Int)
    (hex : (high_frequency_topics.any fun ft => containsSubstr ft topic) = false) :
    ∀ (c : List Int) (s : RateState) (o p : List Int),
      s.message_timestamps topic = o ++ p →
      (∀ x ∈ o, x + 120 < t0) →
      (∀ x ∈ p, t0 - 60 ≤ x ∧ x ≤ t0) →
      p.length + c.length = 51 →
      (∀ x ∈ c, t0 - 60 ≤ x ∧ x ≤ t0) →
      c.getLast? = some t0 →
      300 < t0 - (s.rate_limit_warnings topic).getD 0 →
      (runRate s topic c).2 = 1 ∧
      (runRate s topic c).1.rate_limit_warnings topic = some t0 := by
  intro c
  induction c with
  | nil =>
    intro s o p hq ho hp hlen hc hlast hcool
    simp at hlast
  | cons t c ih =>
    intro s o p hq ho hp hlen hc hlast hcool
    have htw := hc t (by simp)
    have hr : p.length ≤ 99 := by
      simp only [List.length_cons] at hlen
      omega
    obtain ⟨o2, ho2, hpush⟩ := pushMax100_split o p t hr
    have hstep := check_step_nonexempt s topic t hex
    rw [hq, hpush] at hstep
    have hfilter : ((o2 ++ (p ++ [t])).filter (fun x => decide (t - 60 ≤ x))).length
        = p.length + 1 := by
      rw [List.filter_append]
      have h1 : o2.filter (fun x => decide (t - 60 ≤ x)) = [] := by
        rw [List.filter_eq_nil_iff]
        intro u hu
        have h2 := ho u (ho2 u hu)
        simp only [decide_eq_true_eq]
        omega
      have h2 : (p ++ [t]).filter (fun x => decide (t - 60 ≤ x)) = p ++ [t] := by
        rw [List.filter_eq_self]
        intro u hu
        simp only [decide_eq_true_eq]
        rcases List.mem_append.mp hu with h3 | h3
        · have h4 := hp u h3
          omega
        · simp at h3
          omega
      rw [h1, h2]
      simp [List.length_append]
    rw [hfilter] at hstep
    rcases c with _ | ⟨t2, c2⟩
    · have hlast2 : t = t0 := by simpa using hlast
      have hfull : (50 : Nat) < p.length + 1 := by
        simp only [List.length_cons, List.length_nil] at hlen
        omega
      rw [if_pos hfull] at hstep
      rw [if_pos (by rw [hlast2]; exact hcool)] at hstep
      constructor
      · rw [runRate_cons, hstep]
        simp [runRate]
      · rw [runRate_cons, hstep]
        simp [runRate, hlast2]
    · have hle50 : ¬((50 : Nat) < p.length + 1) := by
        simp only [List.length_cons] at hlen
        omega
      rw [if_neg hle50] at hstep
      have hlast2 : (t2 :: c2).getLast? = some t0 := by
        rw [← List.getLast?_cons_cons]
        exact hlast
      have hq1 : (check_message_rate s topic t).1.message_timestamps topic
          = o2 ++ (p ++ [t]) := by
        rw [hstep]
        simp
      have hw1 : (check_message_rate s topic t).1.rate_limit_warnings topic
          = s.rate_limit_warnings topic := by
        rw [hstep]
      have ihh := ih (check_message_rate s topic t).1 o2 (p ++ [t]) hq1
        (fun x hx => ho x (ho2 x hx))
        (fun x hx => by
          rcases List.mem_append.mp hx with h3 | h3
          · exact hp x h3
          · simp at h3
            subst h3
            exact htw)
        (by
          simp only [List.length_append, List.length_singleton, List.length_cons,
            List.length_nil] at hlen ⊢
          omega)
        (fun x hx => hc x (by simp [hx]))
        hlast2
        (by rw [hw1]; exact hcool)
      rw [hstep] at ihh
      constructor
      · rw [runRate_cons, hstep]
        simpa using ihh.1
      · rw [runRate_cons, hstep]
        simpa using ihh.2

/-- C5: on a non-exempt topic, starting from a fresh client: a burst of 51
messages inside one 60-second window (ending at `ta > 300`) produces exactly
one rate warning; any further messages within the 300-second cooldown of that
warning produce zero warnings; and a fresh burst of 51 messages inside a
60-second window after the cooldown has expired (and clear of the earlier
traffic's 60-second window) produces exactly one more warning. -/
theorem rate_limit_debounce (topic : String) (a b c : List Int) (ta tc : Int)
    (hex : (high_frequency_topics.any fun ft => containsSubstr ft topic) = false)
    (ha_len : a.length = 51) (hb_len : b.length = 51) (hc_len : c.length = 51)
    (ha_win : ∀ x ∈ a, ta - 60 ≤ x ∧ x ≤ ta) (ha_last : a.getLast? = some ta)
    (ha_pos : 300 < ta)
    (hb_cool : ∀ x ∈ b, x ≤ ta + 300)
    (hc_win : ∀ x ∈ c, tc - 60 ≤ x ∧ x ≤ tc) (hc_last : c.getLast? = some tc)
    (h_gap : ta + 420 < tc) :
    (runRate freshRateState topic a).2 = 1 ∧
    (runRate (runRate freshRateState topic a).1 topic b).2 = 0 ∧
    (runRate (runRate (runRate freshRateState topic a).1 topic b).1 topic c).2 = 1 := by
  have h1 := burst_aux topic ta hex a freshRateState [] [] rfl (by simp) (by simp)
    (by simp [ha_len]) ha_win ha_last (by simp [freshRateState]; omega)
  have hw1 : (runRate freshRateState topic a).1.rate_limit_warnings topic = some ta :=
    h1.2
  have h2 := runRate_cooldown topic ta b (runRate freshRateState topic a).1 hw1
    (fun t ht => by have := hb_cool t ht; omega)
  have hold : ∀ x ∈ (runRate (runRate freshRateState topic a).1 topic b).1.message_timestamps
      topic, x + 120 < tc := by
    intro x hx
    rcases runRate_elems topic b (runRate freshRateState topic a).1 x hx with h3 | h3
    · rcases runRate_elems topic a freshRateState x h3 with h4 | h4
      · simp [freshRateState] at h4
      · have := (ha_win x h4).2
        omega
    · have := hb_cool x h3
      omega
  have hw2 : (runRate (runRate freshRateState topic a).1 topic b).1.rate_limit_warnings
      topic = some ta := by
    rw [h2.2]
    exact hw1
  have h3 := burst_aux topic tc hex c
    (runRate (runRate freshRateState topic a).1 topic b).1
    ((runRate (runRate freshRateState topic a).1 topic b).1.message_timestamps topic) []
    (by simp) hold (by simp) (by simp [hc_len]) hc_win hc_last
    (by rw [hw2]; simp only [Option.getD_some]; omega)
  exact ⟨h1.1, h2.1, h3.1⟩

/-- Witness for `rate_limit_debounce`: the non-exempt topic
`trading/trade/completed`, 51 messages at time 400, then 51 at time 500
(inside the cooldown), then 51 at time 900 (after it). -/
theorem rate_limit_debounce_witness :
    (runRate freshRateState "trading/trade/completed" (List.replicate 51 400)).2 = 1 ∧
    (runRate (runRate freshRateState "trading/trade/completed"
        (List.replicate 51 400)).1 "trading/trade/completed"
        (List.replicate 51 500)).2 = 0 ∧
    (runRate (runRate (runRate freshRateState "trading/trade/completed"
        (List.replicate 51 400)).1 "trading/trade/completed"
        (List.replicate 51 500)).1 "trading/trade/completed"
        (List.replicate 51 900)).2 = 1 :=
  rate_limit_debounce "trading/trade/completed" (List.replicate 51 400)
    (List.replicate 51 500) (List.replicate 51 900) 400 900
    (by decide) (by decide) (by decide) (by decide) (by decide) (by decide)
    (by decide) (by decide) (by decide) (by decide) (by decide)

end Polyspike
